import Mathlib

/-!
Verification of the CodeBuddy SDK stream adapter (openclaw).

Shallow embedding of `src/src/agents/codebuddy-stream-adapter.ts` (the
tool-suppressing variant) and `src/unnamed/part_001` (the tool-forwarding
variant).  The two files are identical except for the handling of
`tool_use` content blocks and the stop-reason mapping, so the translator
is embedded once, parameterised by a `Variant`; each branch is annotated
with the file it comes from.

Wall-clock `timestamp` fields (`Date.now()`) are outside the embedding:
every stated equality of events is an equality "up to timestamps", made
exact by omitting the timestamp field from `AssistantMsg`.
-/

namespace OpenClaw

/-! ## Upstream message model (CodeBuddy SDK message types) -/

/-- Usage counters of a CodeBuddy `result` message (`CodeBuddyResultMessage.usage`).
Each field is optional in the source (`input_tokens?: number` ...). -/
structure CBUsage where
  input_tokens : Option Nat
  output_tokens : Option Nat
  cache_read_input_tokens : Option Nat
  cache_creation_input_tokens : Option Nat
deriving DecidableEq

/-- Content block of an upstream assistant message (`CodeBuddyContentBlock`).
The `input` payload of a `tool_use` block is an opaque record in the source
(`Record<string, unknown>`); the adapter never inspects it, so it is embedded
as an opaque `String`.  Likewise the `content` of a `tool_result` block is
never inspected (those blocks are always skipped). -/
inductive CBBlock where
  | text (t : String)
  | tool_use (id : String) (name : String) (input : String)
  | tool_result (tool_use_id : String) (content : String)
deriving DecidableEq

/-- Upstream message (`CodeBuddyMessage`).  An `assistant` message carries
`inner.content`, which the adapter guards with `if (!inner?.content) continue`:
a missing/null content is `none`.  A `result` message carries an optional
`stop_reason` string and optional usage counters; its other fields
(`is_error`, `errors`, `subtype`) are never read by the adapter.  `system`
messages and unrecognized message types (`CodeBuddyOtherMessage`) are inert. -/
inductive CBMessage where
  | assistant (content : Option (List CBBlock))
  | result (stop_reason : Option String) (usage : Option CBUsage)
  | system
  | other
deriving DecidableEq

/-! ## Downstream model (pi-ai event vocabulary) -/

/-- The `cost` sub-record of a downstream usage record. -/
structure Cost where
  input : Nat
  output : Nat
  cacheRead : Nat
  cacheWrite : Nat
  total : Nat
deriving DecidableEq

/-- Downstream usage record. -/
structure Usage where
  input : Nat
  output : Nat
  cacheRead : Nat
  cacheWrite : Nat
  totalTokens : Nat
  cost : Cost
deriving DecidableEq

/-- `createDefaultUsage()` from the adapter. -/
def createDefaultUsage : Usage :=
  { input := 0, output := 0, cacheRead := 0, cacheWrite := 0, totalTokens := 0,
    cost := { input := 0, output := 0, cacheRead := 0, cacheWrite := 0, total := 0 } }

/-- Downstream content item: `TextContent` or `ToolCall` of pi-ai. -/
inductive ContentItem where
  | text (t : String)
  | toolCall (id : String) (name : String) (arguments : String)
deriving DecidableEq

/-- Downstream stop reason. -/
inductive StopReason where
  | stop
  | length
  | toolUse
deriving DecidableEq

/-- Downstream `AssistantMessage` (timestamp omitted, see module comment). -/
structure AssistantMsg where
  role : String
  content : List ContentItem
  provider : String
  model : String
  api : String
  stopReason : StopReason
  usage : Usage
deriving DecidableEq

/-- `createPartialMessage(content, usage?, modelId?)` from the adapter:
`usage ?? createDefaultUsage()`, `modelId ?? ""`. -/
def createPartialMessage (content : List ContentItem) (usage : Option Usage)
    (modelId : Option String) : AssistantMsg :=
  { role := "assistant"
    content := content
    provider := "codebuddy"
    model := modelId.getD ""
    api := "anthropic-messages"
    stopReason := StopReason.stop
    usage := usage.getD createDefaultUsage }

/-- Downstream `AssistantMessageEvent`.  Snapshot fields are the `partial`
payloads of the source events (point-in-time values in this embedding). -/
inductive Event where
  | start (snapshot : AssistantMsg)
  | text_start (contentIndex : Nat) (snapshot : AssistantMsg)
  | text_delta (contentIndex : Nat) (delta : String) (snapshot : AssistantMsg)
  | text_end (contentIndex : Nat) (content : String) (snapshot : AssistantMsg)
  | toolcall_start (contentIndex : Nat) (snapshot : AssistantMsg)
  | toolcall_end (contentIndex : Nat) (toolCall : ContentItem) (snapshot : AssistantMsg)
  | error (reason : String) (error : AssistantMsg)
  | done (reason : StopReason) (message : AssistantMsg)
deriving DecidableEq

/-! ## The translator -/

/-- The two mutually exclusive deployments of the adapter:
`suppress` embeds `src/src/agents/codebuddy-stream-adapter.ts` (tool_use
blocks silently skipped), `forward` embeds `src/unnamed/part_001`
(tool_use blocks forwarded as toolcall events). -/
inductive Variant where
  | suppress
  | forward
deriving DecidableEq

/-- Mutable per-invocation state of the translator closure
(`accumulatedContent`, `contentIndex`, `currentUsage`). -/
structure TransState where
  accumulatedContent : List ContentItem
  contentIndex : Nat
  currentUsage : Usage
deriving DecidableEq

/-- Initial state: the literal zero-initializers in `createCodeBuddyStreamFn`. -/
def initState : TransState :=
  { accumulatedContent := []
    contentIndex := 0
    currentUsage :=
      { input := 0, output := 0, cacheRead := 0, cacheWrite := 0, totalTokens := 0,
        cost := { input := 0, output := 0, cacheRead := 0, cacheWrite := 0, total := 0 } } }

/-- Processing of one content block of an upstream assistant message
(the inner `for (const block of inner.content)` loop body). -/
def stepBlock (v : Variant) (modelId : String) (st : TransState) :
    CBBlock → TransState × List Event
  | CBBlock.text t =>
      let evStart := Event.text_start st.contentIndex
        (createPartialMessage st.accumulatedContent (some st.currentUsage) (some modelId))
      let evDelta := Event.text_delta st.contentIndex t
        (createPartialMessage st.accumulatedContent (some st.currentUsage) (some modelId))
      let acc2 := st.accumulatedContent ++ [ContentItem.text t]
      let evEnd := Event.text_end st.contentIndex t
        (createPartialMessage acc2 (some st.currentUsage) (some modelId))
      ({ accumulatedContent := acc2, contentIndex := st.contentIndex + 1,
         currentUsage := st.currentUsage },
       [evStart, evDelta, evEnd])
  | CBBlock.tool_use id name input =>
      match v with
      | Variant.suppress =>
          -- tool_use blocks are intentionally skipped in this variant
          (st, [])
      | Variant.forward =>
          let evStart := Event.toolcall_start st.contentIndex
            (createPartialMessage st.accumulatedContent (some st.currentUsage) (some modelId))
          let tc := ContentItem.toolCall id name input
          let acc2 := st.accumulatedContent ++ [tc]
          let evEnd := Event.toolcall_end st.contentIndex tc
            (createPartialMessage acc2 (some st.currentUsage) (some modelId))
          ({ accumulatedContent := acc2, contentIndex := st.contentIndex + 1,
             currentUsage := st.currentUsage },
           [evStart, evEnd])
  | CBBlock.tool_result _ _ =>
      -- tool_result blocks are skipped in both variants
      (st, [])

/-- The inner block loop over a whole content list. -/
def stepBlocks (v : Variant) (modelId : String) (st : TransState) :
    List CBBlock → TransState × List Event
  | [] => (st, [])
  | b :: bs =>
      let r1 := stepBlock v modelId st b
      let r2 := stepBlocks v modelId r1.1 bs
      (r2.1, r1.2 ++ r2.2)

/-- Field remapping of `result` usage into the running usage
(`currentUsage = { input: resultMsg.usage.input_tokens ?? 0, ... }`). -/
def remapUsage (u : CBUsage) : Usage :=
  { input := u.input_tokens.getD 0
    output := u.output_tokens.getD 0
    cacheRead := u.cache_read_input_tokens.getD 0
    cacheWrite := u.cache_creation_input_tokens.getD 0
    totalTokens := u.input_tokens.getD 0 + u.output_tokens.getD 0
    cost := { input := 0, output := 0, cacheRead := 0, cacheWrite := 0, total := 0 } }

/-- Stop-reason computation of each variant.
`suppress` (adapter.ts): `rawStopReason === "max_tokens" ? "length" : "stop"`.
`forward` (part_001): `rawStopReason === "tool_use" ? "toolUse" :
rawStopReason === "max_tokens" ? "length" : "stop"`. -/
def mapStopReason (v : Variant) (raw : Option String) : StopReason :=
  match v with
  | Variant.suppress =>
      if raw = some "max_tokens" then StopReason.length else StopReason.stop
  | Variant.forward =>
      if raw = some "tool_use" then StopReason.toolUse
      else if raw = some "max_tokens" then StopReason.length
      else StopReason.stop

/-- Processing of one upstream message (the `for await` loop body). -/
def stepMsg (v : Variant) (modelId : String) (st : TransState) :
    CBMessage → TransState × List Event
  | CBMessage.assistant none => (st, [])
  | CBMessage.assistant (some blocks) => stepBlocks v modelId st blocks
  | CBMessage.result raw usage =>
      let newUsage :=
        match usage with
        | some u => remapUsage u
        | none => st.currentUsage
      let reason := mapStopReason v raw
      let finalMessage : AssistantMsg :=
        { role := "assistant"
          content := st.accumulatedContent
          provider := "codebuddy"
          model := modelId
          api := "anthropic-messages"
          stopReason := reason
          usage := newUsage }
      ({ st with currentUsage := newUsage }, [Event.done reason finalMessage])
  | CBMessage.system => (st, [])
  | CBMessage.other => (st, [])

/-- The full consume loop. -/
def stepMsgs (v : Variant) (modelId : String) (st : TransState) :
    List CBMessage → TransState × List Event
  | [] => (st, [])
  | m :: ms =>
      let r1 := stepMsg v modelId st m
      let r2 := stepMsgs v modelId r1.1 ms
      (r2.1, r1.2 ++ r2.2)

/-- One upstream run: the messages yielded by the SDK stream, and an optional
fault thrown by the stream after those messages (`none` = the sequence ended
normally). -/
structure Upstream where
  messages : List CBMessage
  fault : Option String
deriving DecidableEq

/-- Outcome of the dependency-resolution step (`await import("@tencent-ai/agent-sdk")`,
or an injected `queryFn`). -/
inductive Acquire where
  | ok
  | failed
deriving DecidableEq

/-- The error text pushed when the SDK import fails. -/
def depErrorText : String :=
  "CodeBuddy SDK not found. Install it with: pnpm add @tencent-ai/agent-sdk"

/-- The whole async body of `createCodeBuddyStreamFn`'s returned StreamFn,
as the list of events pushed before the stream is ended.
On `Acquire.failed` the catch branch pushes a single `error` event built by
`createPartialMessage([...])` with no usage and no modelId, then returns.
On `Acquire.ok` the `start` event is pushed, the upstream messages are
consumed, and if the upstream faults the catch branch appends a single
`error` event built with `createPartialMessage(content, undefined, model.id)`. -/
def runStream (v : Variant) (modelId : String) (acq : Acquire) (up : Upstream) :
    List Event :=
  match acq with
  | Acquire.failed =>
      [Event.error "error" (createPartialMessage [ContentItem.text depErrorText] none none)]
  | Acquire.ok =>
      let startEv := Event.start
        (createPartialMessage [] (some initState.currentUsage) (some modelId))
      let r := stepMsgs v modelId initState up.messages
      match up.fault with
      | none => startEv :: r.2
      | some msg =>
          startEv :: r.2 ++
            [Event.error "error"
              (createPartialMessage [ContentItem.text msg] none (some modelId))]

/-! ## Prompt builder (tool-suppressing file only)

`buildPromptWithHistory`, `extractPromptFromContext` and
`extractTextFromContent` from `src/src/agents/codebuddy-stream-adapter.ts`. -/

/-- One entry of an array-shaped message content (`MessageContent` array
element).  Only `type` and `text` are read by `extractTextFromContent`;
`text : none` covers both a missing `text` field and a non-string one
(the source checks `typeof b.text === "string"`). -/
structure CtxBlock where
  type : String
  text : Option String
deriving DecidableEq

/-- `MessageContent`: a string or an array of blocks. -/
inductive MsgContent where
  | str (s : String)
  | blocks (bs : List CtxBlock)
deriving DecidableEq

/-- `ContextMessage`: role plus optional content. -/
structure ContextMessage where
  role : String
  content : Option MsgContent
deriving DecidableEq

/-- `extractTextFromContent(content)`: a string is returned as-is; an array is
filtered to its text blocks whose `text` is a string, their texts joined;
anything else yields `""`. -/
def extractTextFromContent : Option MsgContent → String
  | some (MsgContent.str s) => s
  | some (MsgContent.blocks bs) =>
      String.join (bs.filterMap fun b => if b.type = "text" then b.text else none)
  | none => ""

/-- `extractPromptFromContext(context)`: extracted text of the last message
with role `"user"`, or `""` when there is none. -/
def extractPromptFromContext (messages : List ContextMessage) : String :=
  let userMessages := messages.filter fun m => m.role == "user"
  match userMessages.getLast? with
  | none => ""
  | some m => extractTextFromContent m.content

/-- The downward scan `for (let i = messages.length - 1; i >= 0; i--)` for the
last message with role `"user"`; `none` embeds the sentinel `-1`. -/
def lastUserIdx (messages : List ContextMessage) : Option Nat :=
  match List.findIdx? (fun m => m.role == "user") messages.reverse with
  | none => none
  | some j => some (messages.length - 1 - j)

/-- One record pushed into `serialized` by `buildPromptWithHistory`. -/
structure HistoryRecord where
  role : String
  content : String
deriving DecidableEq

/-- The serialization loop of `buildPromptWithHistory`: keep `user`/`assistant`
messages whose extracted text is truthy (non-empty), as `{role, content}`. -/
def serializeHistory (historyMessages : List ContextMessage) : List HistoryRecord :=
  historyMessages.filterMap fun msg =>
    if msg.role == "user" || msg.role == "assistant" then
      let text := extractTextFromContent msg.content
      if text ≠ "" then some { role := msg.role, content := text } else none
    else none

/-- One hexadecimal digit (lower case, as produced by `JSON.stringify`). -/
def hexDigit (n : Nat) : Char :=
  if n < 10 then Char.ofNat (48 + n) else Char.ofNat (97 + (n - 10))

/-- Four-digit hexadecimal rendering used in `\u00XX` escapes. -/
def hex4 (n : Nat) : String :=
  String.mk [hexDigit (n / 4096 % 16), hexDigit (n / 256 % 16),
             hexDigit (n / 16 % 16), hexDigit (n % 16)]

/-- JSON string-character escaping as performed by `JSON.stringify`. -/
def jsonEscapeChar (c : Char) : String :=
  if c = '"' then "\\\""
  else if c = '\\' then "\\\\"
  else if c = Char.ofNat 8 then "\\b"
  else if c = Char.ofNat 9 then "\\t"
  else if c = Char.ofNat 10 then "\\n"
  else if c = Char.ofNat 12 then "\\f"
  else if c = Char.ofNat 13 then "\\r"
  else if c.toNat < 32 then "\\u" ++ hex4 c.toNat
  else String.singleton c

/-- A JSON string literal for `s`. -/
def jsonQuote (s : String) : String :=
  "\"" ++ String.join (s.toList.map jsonEscapeChar) ++ "\""

/-- `JSON.stringify(serialized, null, 2)` for the history array: a 2-space
indented array of `{ "role": ..., "content": ... }` objects. -/
def jsonStringifyHistory (rs : List HistoryRecord) : String :=
  match rs with
  | [] => "[]"
  | _ =>
      "[\n" ++
        String.intercalate ",\n" (rs.map fun r =>
          "  \x7b\n    \"role\": " ++ jsonQuote r.role ++
          ",\n    \"content\": " ++ jsonQuote r.content ++ "\n  \x7d") ++
      "\n]"

/-- `buildPromptWithHistory(context)`. -/
def buildPromptWithHistory (messages : List ContextMessage) : String :=
  let currentPrompt := extractPromptFromContext messages
  match lastUserIdx messages with
  | none => currentPrompt
  | some idx =>
      if idx = 0 then currentPrompt
      else
        let historyMessages := messages.take idx
        let serialized := serializeHistory historyMessages
        if serialized = [] then currentPrompt
        else
          let historyJson := jsonStringifyHistory serialized
          "<conversation_history>\n" ++ historyJson ++
            "\n</conversation_history>\n\n<current_message>\n" ++ currentPrompt ++
            "\n</current_message>"

/-! ## Observation functions on event lists -/

/-- Terminal events in the sense of the spec: `done` or `error`. -/
def isTerminalEvent : Event → Bool
  | Event.done _ _ => true
  | Event.error _ _ => true
  | _ => false

/-- The usage carried by each `done` event, in order. -/
def doneUsages (evs : List Event) : List Usage :=
  evs.filterMap fun e =>
    match e with
    | Event.done _ m => some m.usage
    | _ => none

/-- The stop reason carried by each `done` event, in order. -/
def doneReasons (evs : List Event) : List StopReason :=
  evs.filterMap fun e =>
    match e with
    | Event.done r _ => some r
    | _ => none

/-- The content index carried by each block-scoped event, in order, across
both the `text_*` and `toolcall_*` families. -/
def eventIndices (evs : List Event) : List Nat :=
  evs.filterMap fun e =>
    match e with
    | Event.text_start i _ => some i
    | Event.text_delta i _ _ => some i
    | Event.text_end i _ _ => some i
    | Event.toolcall_start i _ => some i
    | Event.toolcall_end i _ _ => some i
    | _ => none

/-- The delta payload of each `text_delta` event, in order. -/
def deltasOf (evs : List Event) : List String :=
  evs.filterMap fun e =>
    match e with
    | Event.text_delta _ d _ => some d
    | _ => none

/-- The shape of an event: its constructor together with its non-snapshot
payload, forgetting snapshots and content indices. -/
inductive EvShape where
  | startS
  | textStartS
  | textDeltaS (delta : String)
  | textEndS (content : String)
  | toolStartS
  | toolEndS (toolCall : ContentItem)
  | errorS
  | doneS (reason : StopReason)
deriving DecidableEq

/-- Project an event to its shape. -/
def shapeOf : Event → EvShape
  | Event.start _ => EvShape.startS
  | Event.text_start _ _ => EvShape.textStartS
  | Event.text_delta _ d _ => EvShape.textDeltaS d
  | Event.text_end _ c _ => EvShape.textEndS c
  | Event.toolcall_start _ _ => EvShape.toolStartS
  | Event.toolcall_end _ tc _ => EvShape.toolEndS tc
  | Event.error _ _ => EvShape.errorS
  | Event.done r _ => EvShape.doneS r

/-- The assistant-message payload of an event (snapshot, error message, or
final message — each event carries exactly one). -/
def eventMessage : Event → AssistantMsg
  | Event.start p => p
  | Event.text_start _ p => p
  | Event.text_delta _ _ p => p
  | Event.text_end _ _ p => p
  | Event.toolcall_start _ p => p
  | Event.toolcall_end _ _ p => p
  | Event.error _ m => m
  | Event.done _ m => m

/-! ## Spec-side characterizations (written from the claims' words) -/

/-- Spec-side (C2): the usage that a `done` event must carry given the
upstream messages seen so far — the field-remapped usage of the last
`result` message that carried usage data, or all zero if none did. -/
def lastUsageSpec (seen : List CBMessage) : Usage :=
  match seen.reverse.findSome? (fun m =>
    match m with
    | CBMessage.result _ (some u) => some u
    | _ => none) with
  | some u => remapUsage u
  | none => createDefaultUsage

/-- Spec-side (C2): the expected usage of each `done` event of a run: one
entry per `result` message, carrying `lastUsageSpec` of the prefix of
messages up to and including that `result`. -/
def specDoneUsages (seen : List CBMessage) : List CBMessage → List Usage
  | [] => []
  | m :: rest =>
      match m with
      | CBMessage.result _ _ =>
          lastUsageSpec (seen ++ [m]) :: specDoneUsages (seen ++ [m]) rest
      | _ => specDoneUsages (seen ++ [m]) rest

/-- Spec-side (C3): the stop-reason mapping as the claim states it: the
`max_tokens` equivalent maps to `length`; all other or absent values map to
`stop`; except that, only under the tool-forwarding variant, `tool_use` maps
to `toolUse`. -/
def specStopReason (v : Variant) (raw : Option String) : StopReason :=
  if raw = some "max_tokens" then StopReason.length
  else if raw = some "tool_use" then
    match v with
    | Variant.forward => StopReason.toolUse
    | Variant.suppress => StopReason.stop
  else StopReason.stop

/-- Spec-side (C4): how many index-carrying events one upstream block emits:
3 for a text block (start/delta/end), 2 for a tool block under the
forwarding variant (start/end), none otherwise. -/
def blockArity (v : Variant) : CBBlock → Option Nat
  | CBBlock.text _ => some 3
  | CBBlock.tool_use _ _ _ =>
      match v with
      | Variant.forward => some 2
      | Variant.suppress => none
  | CBBlock.tool_result _ _ => none

/-- Spec-side (C4): the arities of the blocks one upstream message emits. -/
def msgArities (v : Variant) : CBMessage → List Nat
  | CBMessage.assistant (some bs) => bs.filterMap (blockArity v)
  | _ => []

/-- Spec-side (C4): the arities of all emitted blocks of a run, in
encounter order. -/
def runArities (v : Variant) (ms : List CBMessage) : List Nat :=
  (ms.map (msgArities v)).flatten

/-- Spec-side (C4): the index sequence demanded by the claim — the k-th
emitted block (0-based, counting from `i`) contributes its arity many copies
of index `i + k`. -/
def indexPattern (i : Nat) : List Nat → List Nat
  | [] => []
  | k :: rest => List.replicate k i ++ indexPattern (i + 1) rest

/-- Spec-side (C10): the usage well-formedness the claim demands: all cost
fields zero and `totalTokens = input + output`. -/
def usageOk (u : Usage) : Prop :=
  u.cost = { input := 0, output := 0, cacheRead := 0, cacheWrite := 0, total := 0 } ∧
  u.totalTokens = u.input + u.output

instance (u : Usage) : Decidable (usageOk u) := by
  unfold usageOk; infer_instance

/-- Spec-side (C9): whether an upstream message contains a tool-invocation
block. -/
def msgHasToolUse : CBMessage → Bool
  | CBMessage.assistant (some bs) =>
      bs.any fun b =>
        match b with
        | CBBlock.tool_use _ _ _ => true
        | _ => false
  | _ => false

/-- Spec-side (C9): whether an upstream message is a `result` carrying the
`tool_use` stop reason. -/
def msgToolUseStop : CBMessage → Bool
  | CBMessage.result (some r) _ => r == "tool_use"
  | _ => false

/-- Spec-side (C7): the messages strictly before the last `user` message
(`[]` when there is no user message), phrased without the index scan: drop
the non-user tail and the last user message itself. -/
def beforeLastUser (messages : List ContextMessage) : List ContextMessage :=
  (((messages.reverse.dropWhile fun m => !(m.role == "user")).drop 1)).reverse

/-- Spec-side (C7): the prior `user`/`assistant` turns with non-empty
extracted text before the last user message, as `{role, content}` records. -/
def specPriorTurns (messages : List ContextMessage) : List HistoryRecord :=
  (beforeLastUser messages).filterMap fun msg =>
    if (msg.role == "user" || msg.role == "assistant") &&
        extractTextFromContent msg.content != "" then
      some { role := msg.role, content := extractTextFromContent msg.content }
    else none

/-- Spec-side (C7): the two delimited sections demanded by the claim. -/
def wrappedPrompt (historyJson currentPrompt : String) : String :=
  "<conversation_history>\n" ++ historyJson ++
    "\n</conversation_history>\n\n<current_message>\n" ++ currentPrompt ++
    "\n</current_message>"

/-- Spec-side (C1 amended): the shape of the last event one upstream content
block emits — `none` when the block emits no events (tool_result always;
tool_use under the suppressing variant). -/
def blockLastShape (v : Variant) : CBBlock → Option EvShape
  | CBBlock.text t => some (EvShape.textEndS t)
  | CBBlock.tool_use id name input =>
      match v with
      | Variant.forward => some (EvShape.toolEndS (ContentItem.toolCall id name input))
      | Variant.suppress => none
  | CBBlock.tool_result _ _ => none

/-- Spec-side (C1 amended): the shape of the last event one upstream message
emits — `none` when the message emits no events at all (system/other
messages, assistant messages with missing content or only skipped blocks). -/
def msgLastShape (v : Variant) : CBMessage → Option EvShape
  | CBMessage.assistant none => none
  | CBMessage.assistant (some bs) => (bs.filterMap (blockLastShape v)).getLast?
  | CBMessage.result raw _ => some (EvShape.doneS (mapStopReason v raw))
  | CBMessage.system => none
  | CBMessage.other => none

/-- Spec-side (C1 amended): the shape of the last downstream event of a
fault-free run — that of the last event of the last event-emitting upstream
message, or the `start` event when no upstream message emits events. -/
def lastShapeSpec (v : Variant) (ms : List CBMessage) : EvShape :=
  ((ms.filterMap (msgLastShape v)).getLast?).getD EvShape.startS

/-! ## General structural lemmas -/

theorem stepMsgs_append (v : Variant) (mid : String) (ms1 ms2 : List CBMessage) :
    ∀ st : TransState,
      stepMsgs v mid st (ms1 ++ ms2) =
        ((stepMsgs v mid (stepMsgs v mid st ms1).1 ms2).1,
         (stepMsgs v mid st ms1).2 ++ (stepMsgs v mid (stepMsgs v mid st ms1).1 ms2).2) := by
  induction ms1 with
  | nil => intro st; simp [stepMsgs]
  | cons m ms ih => intro st; simp [stepMsgs, ih]

/-! ## C5 and C8: first event, dependency failure, upstream fault -/

/-- C5: for every invocation, when the upstream query capability cannot be
resolved, exactly one `error` event is emitted and nothing else; otherwise the
first emitted event is `start`, carrying an empty accumulated-content snapshot
and all-zero usage. -/
theorem c5_first_event (v : Variant) (mid : String) (up : Upstream) :
    runStream v mid Acquire.failed up =
      [Event.error "error"
        (createPartialMessage [ContentItem.text depErrorText] none none)] ∧
    (runStream v mid Acquire.ok up).head? =
      some (Event.start
        { role := "assistant", content := [], provider := "codebuddy", model := mid,
          api := "anthropic-messages", stopReason := StopReason.stop,
          usage := { input := 0, output := 0, cacheRead := 0, cacheWrite := 0,
                     totalTokens := 0,
                     cost := { input := 0, output := 0, cacheRead := 0,
                               cacheWrite := 0, total := 0 } } }) := by
  refine ⟨rfl, ?_⟩
  unfold runStream
  rcases up with ⟨ms, fault⟩
  cases fault <;> rfl

/-- C8: if consuming the upstream sequence throws after consumption began, the
event sequence is exactly the fault-free sequence followed by a single `error`
event carrying the fault's message as one text content block: partial content
already emitted is neither retracted nor replayed. -/
theorem c8_upstream_fault (v : Variant) (mid : String) (ms : List CBMessage)
    (e : String) :
    runStream v mid Acquire.ok ⟨ms, some e⟩ =
      runStream v mid Acquire.ok ⟨ms, none⟩ ++
        [Event.error "error"
          (createPartialMessage [ContentItem.text e] none (some mid))] := by
  simp [runStream]

/-! ## C1: terminal events -/

/-- C1 fails on the code: an upstream sequence that ends without ever yielding
a `result` message produces a downstream sequence whose last event is
`text_end`, not `done`/`error`. -/
theorem c1_counterexample :
    ((runStream Variant.suppress "m" Acquire.ok
        ⟨[CBMessage.assistant (some [CBBlock.text "hi"])], none⟩).getLast?).map
      isTerminalEvent = some false := by
  rfl

theorem getLast?_append_or {α : Type} (l1 l2 : List α) :
    (l1 ++ l2).getLast? = (l2.getLast?).or l1.getLast? := by
  cases l2 with
  | nil => simp
  | cons a t =>
      rw [List.getLast?_append_cons]
      obtain ⟨x, hx⟩ : ∃ x, (a :: t).getLast? = some x := by
        cases h : (a :: t).getLast? with
        | none => exact absurd (List.getLast?_eq_none_iff.mp h) (by simp)
        | some x => exact ⟨x, rfl⟩
      rw [hx]
      rfl

theorem getLast?_cons_or {α : Type} (a : α) (l : List α) :
    (a :: l).getLast? = (l.getLast?).or (some a) := by
  simpa using getLast?_append_or [a] l

theorem stepBlock_lastShape (v : Variant) (mid : String) (st : TransState)
    (b : CBBlock) :
    ((stepBlock v mid st b).2.map shapeOf).getLast? = blockLastShape v b := by
  cases b <;> cases v <;> rfl

theorem stepBlocks_lastShape (v : Variant) (mid : String) (bs : List CBBlock) :
    ∀ st : TransState,
      ((stepBlocks v mid st bs).2.map shapeOf).getLast? =
        (bs.filterMap (blockLastShape v)).getLast? := by
  induction bs with
  | nil => intro st; rfl
  | cons b bs ih =>
      intro st
      show (((stepBlock v mid st b).2 ++
        (stepBlocks v mid (stepBlock v mid st b).1 bs).2).map shapeOf).getLast? = _
      rw [List.map_append, getLast?_append_or, ih, stepBlock_lastShape]
      cases hb : blockLastShape v b with
      | none => simp [List.filterMap_cons, hb]
      | some s =>
          simp only [List.filterMap_cons, hb]
          rw [getLast?_cons_or]

theorem stepMsg_lastShape (v : Variant) (mid : String) (st : TransState)
    (m : CBMessage) :
    ((stepMsg v mid st m).2.map shapeOf).getLast? = msgLastShape v m := by
  cases m with
  | assistant c =>
      cases c with
      | none => rfl
      | some bs => exact stepBlocks_lastShape v mid bs st
  | result raw usage => rfl
  | system => rfl
  | other => rfl

theorem stepMsgs_lastShape (v : Variant) (mid : String) (ms : List CBMessage) :
    ∀ st : TransState,
      ((stepMsgs v mid st ms).2.map shapeOf).getLast? =
        (ms.filterMap (msgLastShape v)).getLast? := by
  induction ms with
  | nil => intro st; rfl
  | cons m ms ih =>
      intro st
      show (((stepMsg v mid st m).2 ++
        (stepMsgs v mid (stepMsg v mid st m).1 ms).2).map shapeOf).getLast? = _
      rw [List.map_append, getLast?_append_or, ih, stepMsg_lastShape]
      cases hm : msgLastShape v m with
      | none => simp [List.filterMap_cons, hm]
      | some s =>
          simp only [List.filterMap_cons, hm]
          rw [getLast?_cons_or]

/-- C1 amended: when consumption ends in a fault, the single `error` event is
the last emitted event; without a fault, the last emitted event is exactly the
last event of the last event-emitting upstream message — the `done` of a
`result` message, or the `text_end` (`toolcall_end` under the forwarding
variant) of an assistant message's last emitted block — and the `start` event
when no upstream message emits events.  Upstream messages that emit no events
never displace the last event, and the sequence ends in `done`/`error` exactly
when a fault occurred or the last event-emitting message is a `result`. -/
theorem c1_last_event_amended (v : Variant) (mid : String) (ms : List CBMessage)
    (e : String) :
    (runStream v mid Acquire.ok ⟨ms, some e⟩).getLast? =
      some (Event.error "error"
        (createPartialMessage [ContentItem.text e] none (some mid))) ∧
    ((runStream v mid Acquire.ok ⟨ms, none⟩).getLast?).map shapeOf =
      some (lastShapeSpec v ms) := by
  constructor
  · show (Event.start _ :: (_ ++ [_])).getLast? = _
    rw [← List.cons_append, List.getLast?_concat]
  · show ((Event.start (createPartialMessage [] (some initState.currentUsage) (some mid)) ::
      (stepMsgs v mid initState ms).2).getLast?).map shapeOf = _
    rw [← List.getLast?_map, List.map_cons, getLast?_cons_or,
      stepMsgs_lastShape v mid ms initState]
    unfold lastShapeSpec
    cases hl : (ms.filterMap (msgLastShape v)).getLast? with
    | none => rfl
    | some s => rfl

/-! ## C2: done-event usage -/

theorem doneUsages_append (l1 l2 : List Event) :
    doneUsages (l1 ++ l2) = doneUsages l1 ++ doneUsages l2 :=
  List.filterMap_append l1 l2 _

theorem stepBlock_currentUsage (v : Variant) (mid : String) (st : TransState)
    (b : CBBlock) : (stepBlock v mid st b).1.currentUsage = st.currentUsage := by
  cases b <;> cases v <;> rfl

theorem doneUsages_stepBlock (v : Variant) (mid : String) (st : TransState)
    (b : CBBlock) : doneUsages (stepBlock v mid st b).2 = [] := by
  cases b <;> cases v <;> rfl

theorem stepBlocks_currentUsage (v : Variant) (mid : String) (bs : List CBBlock) :
    ∀ st : TransState, (stepBlocks v mid st bs).1.currentUsage = st.currentUsage := by
  induction bs with
  | nil => intro st; rfl
  | cons b bs ih =>
      intro st
      show (stepBlocks v mid (stepBlock v mid st b).1 bs).1.currentUsage = _
      rw [ih, stepBlock_currentUsage]

theorem doneUsages_stepBlocks (v : Variant) (mid : String) (bs : List CBBlock) :
    ∀ st : TransState, doneUsages (stepBlocks v mid st bs).2 = [] := by
  induction bs with
  | nil => intro st; rfl
  | cons b bs ih =>
      intro st
      show doneUsages ((stepBlock v mid st b).2 ++ _) = []
      rw [doneUsages_append, doneUsages_stepBlock, ih]
      rfl

theorem lastUsageSpec_append (seen : List CBMessage) (m : CBMessage) :
    lastUsageSpec (seen ++ [m]) =
      match m with
      | CBMessage.result _ (some u) => remapUsage u
      | _ => lastUsageSpec seen := by
  unfold lastUsageSpec
  rw [List.reverse_append]
  cases m with
  | assistant c => simp [List.findSome?]
  | result raw usage => cases usage <;> simp [List.findSome?]
  | system => simp [List.findSome?]
  | other => simp [List.findSome?]

theorem doneUsages_stepMsgs (v : Variant) (mid : String) (ms : List CBMessage) :
    ∀ (seen : List CBMessage) (st : TransState),
      st.currentUsage = lastUsageSpec seen →
      doneUsages (stepMsgs v mid st ms).2 = specDoneUsages seen ms := by
  induction ms with
  | nil => intro seen st _; rfl
  | cons m ms ih =>
      intro seen st h
      show doneUsages ((stepMsg v mid st m).2 ++ (stepMsgs v mid (stepMsg v mid st m).1 ms).2) = _
      rw [doneUsages_append]
      cases m with
      | assistant c =>
          have hspec : lastUsageSpec (seen ++ [CBMessage.assistant c]) = lastUsageSpec seen := by
            rw [lastUsageSpec_append]
          cases c with
          | none =>
              show doneUsages [] ++ doneUsages (stepMsgs v mid st ms).2 = _
              rw [ih (seen ++ [CBMessage.assistant none]) st (by rw [hspec, ← h])]
              rfl
          | some bs =>
              show doneUsages (stepBlocks v mid st bs).2 ++
                doneUsages (stepMsgs v mid (stepBlocks v mid st bs).1 ms).2 = _
              rw [doneUsages_stepBlocks,
                ih (seen ++ [CBMessage.assistant (some bs)]) _
                  (by rw [stepBlocks_currentUsage, hspec, ← h])]
              rfl
      | result raw usage =>
          cases usage with
          | none =>
              have hspec : lastUsageSpec (seen ++ [CBMessage.result raw none]) =
                  lastUsageSpec seen := by rw [lastUsageSpec_append]
              show doneUsages [Event.done _ _] ++
                doneUsages (stepMsgs v mid _ ms).2 = _
              rw [ih (seen ++ [CBMessage.result raw none]) _ (by rw [hspec]; exact h)]
              show st.currentUsage :: _ = _
              rw [h, ← hspec]
              rfl
          | some u =>
              have hspec : lastUsageSpec (seen ++ [CBMessage.result raw (some u)]) =
                  remapUsage u := by rw [lastUsageSpec_append]
              show doneUsages [Event.done _ _] ++
                doneUsages (stepMsgs v mid _ ms).2 = _
              rw [ih (seen ++ [CBMessage.result raw (some u)]) _ (by rw [hspec]; rfl)]
              show remapUsage u :: _ = _
              rw [← hspec]
              rfl
      | system =>
          have hspec : lastUsageSpec (seen ++ [CBMessage.system]) = lastUsageSpec seen := by
            rw [lastUsageSpec_append]
          show doneUsages [] ++ doneUsages (stepMsgs v mid st ms).2 = _
          rw [ih (seen ++ [CBMessage.system]) st (by rw [hspec, ← h])]
          rfl
      | other =>
          have hspec : lastUsageSpec (seen ++ [CBMessage.other]) = lastUsageSpec seen := by
            rw [lastUsageSpec_append]
          show doneUsages [] ++ doneUsages (stepMsgs v mid st ms).2 = _
          rw [ih (seen ++ [CBMessage.other]) st (by rw [hspec, ← h])]
          rfl

/-- C2: each `done` event of a run carries exactly the field-remapped usage of
the last `result` message (at or before it) that carried usage data, or
all-zero usage if none did — usage is overwritten wholesale, never merged. -/
theorem c2_done_usage (v : Variant) (mid : String) (ms : List CBMessage)
    (fault : Option String) :
    doneUsages (runStream v mid Acquire.ok ⟨ms, fault⟩) = specDoneUsages [] ms := by
  have h := doneUsages_stepMsgs v mid ms [] initState rfl
  cases fault with
  | none =>
      show doneUsages (Event.start _ :: (stepMsgs v mid initState ms).2) = _
      rw [show (Event.start (createPartialMessage [] (some initState.currentUsage) (some mid)) ::
        (stepMsgs v mid initState ms).2) =
        [Event.start (createPartialMessage [] (some initState.currentUsage) (some mid))] ++
        (stepMsgs v mid initState ms).2 from rfl]
      rw [doneUsages_append, h]
      rfl
  | some e =>
      show doneUsages (Event.start _ :: ((stepMsgs v mid initState ms).2 ++ _)) = _
      rw [show (Event.start (createPartialMessage [] (some initState.currentUsage) (some mid)) ::
        ((stepMsgs v mid initState ms).2 ++
          [Event.error "error" (createPartialMessage [ContentItem.text e] none (some mid))])) =
        [Event.start (createPartialMessage [] (some initState.currentUsage) (some mid))] ++
        ((stepMsgs v mid initState ms).2 ++
          [Event.error "error" (createPartialMessage [ContentItem.text e] none (some mid))]) from rfl]
      rw [doneUsages_append, doneUsages_append, h]
      simp [doneUsages]

/-! ## C3: stop-reason mapping -/

theorem doneReasons_append (l1 l2 : List Event) :
    doneReasons (l1 ++ l2) = doneReasons l1 ++ doneReasons l2 :=
  List.filterMap_append l1 l2 _

theorem doneReasons_stepBlock (v : Variant) (mid : String) (st : TransState)
    (b : CBBlock) : doneReasons (stepBlock v mid st b).2 = [] := by
  cases b <;> cases v <;> rfl

theorem doneReasons_stepBlocks (v : Variant) (mid : String) (bs : List CBBlock) :
    ∀ st : TransState, doneReasons (stepBlocks v mid st bs).2 = [] := by
  induction bs with
  | nil => intro st; rfl
  | cons b bs ih =>
      intro st
      show doneReasons ((stepBlock v mid st b).2 ++ _) = []
      rw [doneReasons_append, doneReasons_stepBlock, ih]
      rfl

theorem mapStopReason_eq_spec (v : Variant) (raw : Option String) :
    mapStopReason v raw = specStopReason v raw := by
  cases v <;> unfold mapStopReason specStopReason <;> split_ifs <;> simp_all

theorem doneReasons_stepMsgs (v : Variant) (mid : String) (ms : List CBMessage) :
    ∀ st : TransState,
      doneReasons (stepMsgs v mid st ms).2 =
        ms.filterMap fun m =>
          match m with
          | CBMessage.result raw _ => some (specStopReason v raw)
          | _ => none := by
  induction ms with
  | nil => intro st; rfl
  | cons m ms ih =>
      intro st
      show doneReasons ((stepMsg v mid st m).2 ++ (stepMsgs v mid (stepMsg v mid st m).1 ms).2) = _
      rw [doneReasons_append]
      cases m with
      | assistant c =>
          cases c with
          | none => rw [ih]; rfl
          | some bs =>
              show doneReasons (stepBlocks v mid st bs).2 ++ _ = _
              rw [doneReasons_stepBlocks, ih]
              rfl
      | result raw usage =>
          show doneReasons [Event.done (mapStopReason v raw) _] ++ _ = _
          rw [ih]
          show mapStopReason v raw :: _ = _
          rw [mapStopReason_eq_spec]
          rfl
      | system => rw [ih]; rfl
      | other => rw [ih]; rfl

/-- C3: the stop reason carried by each `done` event is computed from the
originating `result` message's raw stop reason: `max_tokens` maps to `length`,
all other or absent values map to `stop`, except that only under the
tool-forwarding variant `tool_use` maps to `toolUse` (under the suppressing
variant it maps to `stop`). -/
theorem c3_stop_reason (v : Variant) (mid : String) (ms : List CBMessage)
    (fault : Option String) :
    doneReasons (runStream v mid Acquire.ok ⟨ms, fault⟩) =
      ms.filterMap fun m =>
        match m with
        | CBMessage.result raw _ => some (specStopReason v raw)
        | _ => none := by
  have h := doneReasons_stepMsgs v mid ms initState
  cases fault with
  | none =>
      show doneReasons (Event.start _ :: (stepMsgs v mid initState ms).2) = _
      show doneReasons ([Event.start _] ++ (stepMsgs v mid initState ms).2) = _
      rw [doneReasons_append, h]
      rfl
  | some e =>
      show doneReasons (Event.start _ :: ((stepMsgs v mid initState ms).2 ++ _)) = _
      show doneReasons ([Event.start _] ++ ((stepMsgs v mid initState ms).2 ++ [_])) = _
      rw [doneReasons_append, doneReasons_append, h]
      simp [doneReasons]

/-! ## C4: content indices -/

theorem eventIndices_append (l1 l2 : List Event) :
    eventIndices (l1 ++ l2) = eventIndices l1 ++ eventIndices l2 :=
  List.filterMap_append l1 l2 _

theorem indexPattern_append (l1 l2 : List Nat) :
    ∀ i : Nat, indexPattern i (l1 ++ l2) =
      indexPattern i l1 ++ indexPattern (i + l1.length) l2 := by
  induction l1 with
  | nil => intro i; simp [indexPattern]
  | cons k l1 ih =>
      intro i
      show List.replicate k i ++ indexPattern (i + 1) (l1 ++ l2) = _
      rw [ih]
      show _ = (List.replicate k i ++ indexPattern (i + 1) l1) ++ indexPattern (i + (l1.length + 1)) l2
      rw [List.append_assoc]
      have : i + 1 + l1.length = i + (l1.length + 1) := by omega
      rw [this]

theorem eventIndices_stepBlock (v : Variant) (mid : String) (st : TransState)
    (b : CBBlock) :
    eventIndices (stepBlock v mid st b).2 =
      match blockArity v b with
      | some k => List.replicate k st.contentIndex
      | none => [] := by
  cases b <;> cases v <;> rfl

theorem contentIndex_stepBlock (v : Variant) (mid : String) (st : TransState)
    (b : CBBlock) :
    (stepBlock v mid st b).1.contentIndex =
      st.contentIndex +
        (match blockArity v b with
         | some _ => 1
         | none => 0) := by
  cases b <;> cases v <;> rfl

theorem eventIndices_stepBlocks (v : Variant) (mid : String) (bs : List CBBlock) :
    ∀ st : TransState,
      eventIndices (stepBlocks v mid st bs).2 =
        indexPattern st.contentIndex (bs.filterMap (blockArity v)) ∧
      (stepBlocks v mid st bs).1.contentIndex =
        st.contentIndex + (bs.filterMap (blockArity v)).length := by
  induction bs with
  | nil => intro st; exact ⟨rfl, rfl⟩
  | cons b bs ih =>
      intro st
      have hb := eventIndices_stepBlock v mid st b
      have hc := contentIndex_stepBlock v mid st b
      have hih := ih (stepBlock v mid st b).1
      constructor
      · show eventIndices ((stepBlock v mid st b).2 ++ _) = _
        rw [eventIndices_append, hb, hih.1, hc]
        cases hba : blockArity v b with
        | none =>
            simp only [List.filterMap_cons, hba]
            rfl
        | some k =>
            simp only [List.filterMap_cons, hba]
            rfl
      · show (stepBlocks v mid (stepBlock v mid st b).1 bs).1.contentIndex = _
        rw [hih.2, hc]
        cases hba : blockArity v b with
        | none =>
            simp only [List.filterMap_cons, hba]
            omega
        | some k =>
            simp only [List.filterMap_cons, hba, List.length_cons]
            omega

theorem eventIndices_stepMsg (v : Variant) (mid : String) (st : TransState)
    (m : CBMessage) :
    eventIndices (stepMsg v mid st m).2 = indexPattern st.contentIndex (msgArities v m) ∧
    (stepMsg v mid st m).1.contentIndex = st.contentIndex + (msgArities v m).length := by
  cases m with
  | assistant c =>
      cases c with
      | none => exact ⟨rfl, rfl⟩
      | some bs => exact eventIndices_stepBlocks v mid bs st
  | result raw usage => exact ⟨rfl, rfl⟩
  | system => exact ⟨rfl, rfl⟩
  | other => exact ⟨rfl, rfl⟩

theorem eventIndices_stepMsgs (v : Variant) (mid : String) (ms : List CBMessage) :
    ∀ st : TransState,
      eventIndices (stepMsgs v mid st ms).2 =
        indexPattern st.contentIndex (runArities v ms) ∧
      (stepMsgs v mid st ms).1.contentIndex =
        st.contentIndex + (runArities v ms).length := by
  induction ms with
  | nil => intro st; exact ⟨rfl, rfl⟩
  | cons m ms ih =>
      intro st
      have hm := eventIndices_stepMsg v mid st m
      have hih := ih (stepMsg v mid st m).1
      have hr : runArities v (m :: ms) = msgArities v m ++ runArities v ms := by
        simp [runArities]
      constructor
      · show eventIndices ((stepMsg v mid st m).2 ++ _) = _
        rw [eventIndices_append, hm.1, hih.1, hm.2, hr, indexPattern_append]
      · show (stepMsgs v mid (stepMsg v mid st m).1 ms).1.contentIndex = _
        rw [hih.2, hm.2, hr, List.length_append]
        omega

/-- C4: the content indices carried by the block-scoped events of one
translation — across both the `text_*` and `toolcall_*` families — are exactly
the pattern that assigns the k-th emitted block (in encounter order, starting
at 0) index k, repeated once per event of that block: strictly increasing by 1
per block, no gaps, no repeats, and all of a block's events share its index. -/
theorem c4_content_indices (v : Variant) (mid : String) (ms : List CBMessage)
    (fault : Option String) :
    eventIndices (runStream v mid Acquire.ok ⟨ms, fault⟩) =
      indexPattern 0 (runArities v ms) := by
  have h := (eventIndices_stepMsgs v mid ms initState).1
  cases fault with
  | none =>
      show eventIndices ([Event.start _] ++ (stepMsgs v mid initState ms).2) = _
      rw [eventIndices_append, h]
      rfl
  | some e =>
      show eventIndices ([Event.start _] ++ ((stepMsgs v mid initState ms).2 ++ [_])) = _
      rw [eventIndices_append, eventIndices_append, h]
      simp only [eventIndices, List.filterMap_cons, List.filterMap_nil, List.append_nil]
      rfl

/-! ## C6: text-block translation -/

/-- The delta payload of a shape, used to recover `deltasOf` from shapes. -/
def shapeDelta : EvShape → Option String
  | EvShape.textDeltaS d => some d
  | _ => none

theorem deltasOf_eq_shapes (evs : List Event) :
    deltasOf evs = (evs.map shapeOf).filterMap shapeDelta := by
  rw [List.filterMap_map]
  unfold deltasOf
  congr 1
  funext e
  cases e <;> rfl

theorem shapes_stepBlocks_text (v : Variant) (mid : String) (texts : List String) :
    ∀ st : TransState,
      (stepBlocks v mid st (texts.map CBBlock.text)).2.map shapeOf =
        (texts.map fun t =>
          [EvShape.textStartS, EvShape.textDeltaS t, EvShape.textEndS t]).flatten := by
  induction texts with
  | nil => intro st; rfl
  | cons t ts ih =>
      intro st
      show ((stepBlock v mid st (CBBlock.text t)).2 ++ _).map shapeOf = _
      rw [List.map_append, ih]
      rfl

theorem filterMap_shapeDelta_pattern (texts : List String) :
    ((texts.map fun t =>
        [EvShape.textStartS, EvShape.textDeltaS t, EvShape.textEndS t]).flatten).filterMap
      shapeDelta = texts := by
  induction texts with
  | nil => rfl
  | cons t ts ih =>
      show List.filterMap shapeDelta
        ([EvShape.textStartS, EvShape.textDeltaS t, EvShape.textEndS t] ++ _) = _
      rw [List.filterMap_append, ih]
      rfl

/-- C6: an upstream assistant message whose blocks are all text blocks is
translated to, per block in order, a `text_start`, one `text_delta` carrying
the full block text (no sub-block chunking), and a `text_end` whose content
equals the block text; consequently the concatenation of the delta payloads
equals the concatenation of the block texts in block order. -/
theorem c6_text_translation (v : Variant) (mid : String) (st : TransState)
    (texts : List String) :
    (stepMsg v mid st (CBMessage.assistant (some (texts.map CBBlock.text)))).2.map shapeOf =
      (texts.map fun t =>
        [EvShape.textStartS, EvShape.textDeltaS t, EvShape.textEndS t]).flatten ∧
    String.join
      (deltasOf (stepMsg v mid st (CBMessage.assistant (some (texts.map CBBlock.text)))).2) =
      String.join texts := by
  have h1 := shapes_stepBlocks_text v mid texts st
  refine ⟨h1, ?_⟩
  rw [deltasOf_eq_shapes]
  show String.join ((stepBlocks v mid st (texts.map CBBlock.text)).2.map shapeOf |>.filterMap shapeDelta) = _
  rw [h1, filterMap_shapeDelta_pattern]

/-! ## C9: agreement of the two variants without tool blocks -/

theorem stepBlock_variant_eq (mid : String) (st : TransState) (b : CBBlock)
    (h : (match b with | CBBlock.tool_use _ _ _ => false | _ => true) = true) :
    stepBlock Variant.suppress mid st b = stepBlock Variant.forward mid st b := by
  cases b with
  | text t => rfl
  | tool_use id name input => simp at h
  | tool_result tid c => rfl

theorem stepBlocks_variant_eq (mid : String) (bs : List CBBlock)
    (h : ∀ b ∈ bs, (match b with | CBBlock.tool_use _ _ _ => false | _ => true) = true) :
    ∀ st : TransState,
      stepBlocks Variant.suppress mid st bs = stepBlocks Variant.forward mid st bs := by
  induction bs with
  | nil => intro st; rfl
  | cons b bs ih =>
      intro st
      show ((stepBlocks Variant.suppress mid (stepBlock Variant.suppress mid st b).1 bs).1,
        (stepBlock Variant.suppress mid st b).2 ++ _) = _
      rw [stepBlock_variant_eq mid st b (h b (List.mem_cons_self b bs)),
        ih (fun x hx => h x (List.mem_cons_of_mem b hx))]
      rfl

theorem stepMsg_variant_eq (mid : String) (st : TransState) (m : CBMessage)
    (h1 : msgHasToolUse m = false) (h2 : msgToolUseStop m = false) :
    stepMsg Variant.suppress mid st m = stepMsg Variant.forward mid st m := by
  cases m with
  | assistant c =>
      cases c with
      | none => rfl
      | some bs =>
          have hb : ∀ b ∈ bs,
              (match b with | CBBlock.tool_use _ _ _ => false | _ => true) = true := by
            intro b hbmem
            have := (List.any_eq_false.mp h1) b hbmem
            cases b <;> simp_all
          exact congrArg (fun r => r) (stepBlocks_variant_eq mid bs hb st)
  | result raw usage =>
      have hm : mapStopReason Variant.suppress raw = mapStopReason Variant.forward raw := by
        cases raw with
        | none => rfl
        | some r =>
            have : (r == "tool_use") = false := by simpa [msgToolUseStop] using h2
            have hne : r ≠ "tool_use" := by simpa using this
            simp [mapStopReason, hne]
      simp [stepMsg, hm]
  | system => rfl
  | other => rfl

theorem stepMsgs_variant_eq (mid : String) (ms : List CBMessage)
    (h1 : ∀ m ∈ ms, msgHasToolUse m = false)
    (h2 : ∀ m ∈ ms, msgToolUseStop m = false) :
    ∀ st : TransState,
      stepMsgs Variant.suppress mid st ms = stepMsgs Variant.forward mid st ms := by
  induction ms with
  | nil => intro st; rfl
  | cons m ms ih =>
      intro st
      show ((stepMsgs Variant.suppress mid (stepMsg Variant.suppress mid st m).1 ms).1,
        (stepMsg Variant.suppress mid st m).2 ++ _) = _
      rw [stepMsg_variant_eq mid st m (h1 m (List.mem_cons_self m ms)) (h2 m (List.mem_cons_self m ms)),
        ih (fun x hx => h1 x (List.mem_cons_of_mem m hx))
           (fun x hx => h2 x (List.mem_cons_of_mem m hx))]
      rfl

/-- C9: when no upstream assistant message contains a tool_use block and no
result message carries the `tool_use` stop reason, the tool-suppressing and
tool-forwarding translator variants emit identical downstream event sequences
for the same upstream run. -/
theorem c9_variant_agreement (mid : String) (ms : List CBMessage)
    (fault : Option String)
    (h1 : ∀ m ∈ ms, msgHasToolUse m = false)
    (h2 : ∀ m ∈ ms, msgToolUseStop m = false) :
    runStream Variant.suppress mid Acquire.ok ⟨ms, fault⟩ =
      runStream Variant.forward mid Acquire.ok ⟨ms, fault⟩ := by
  have h := stepMsgs_variant_eq mid ms h1 h2 initState
  cases fault <;> simp [runStream, h]

/-- Concrete instance of `c9_variant_agreement`. -/
def c9Msgs : List CBMessage :=
  [CBMessage.system,
   CBMessage.assistant (some [CBBlock.text "a", CBBlock.text "b"]),
   CBMessage.result (some "end_turn") (some ⟨some 10, some 5, none, none⟩)]

theorem c9_variant_witness :
    (∀ m ∈ c9Msgs, msgHasToolUse m = false) ∧
    (∀ m ∈ c9Msgs, msgToolUseStop m = false) ∧
    runStream Variant.suppress "m" Acquire.ok ⟨c9Msgs, none⟩ =
      runStream Variant.forward "m" Acquire.ok ⟨c9Msgs, none⟩ :=
  ⟨by decide, by decide,
   c9_variant_agreement "m" c9Msgs none (by decide) (by decide)⟩

/-! ## C10: cost fields and totalTokens -/

theorem usageOk_default : usageOk createDefaultUsage := ⟨rfl, rfl⟩

theorem usageOk_remap (u : CBUsage) : usageOk (remapUsage u) := ⟨rfl, rfl⟩

theorem usageOk_createPartialMessage (content : List ContentItem)
    (usage : Option Usage) (modelId : Option String)
    (h : ∀ u, usage = some u → usageOk u) :
    usageOk (createPartialMessage content usage modelId).usage := by
  cases usage with
  | none => exact usageOk_default
  | some u => exact h u rfl

theorem usageOk_stepBlock (v : Variant) (mid : String) (st : TransState)
    (b : CBBlock) (h : usageOk st.currentUsage) :
    ∀ e ∈ (stepBlock v mid st b).2, usageOk (eventMessage e).usage := by
  intro e he
  cases b with
  | text t =>
      have he2 : e = Event.text_start st.contentIndex
            (createPartialMessage st.accumulatedContent (some st.currentUsage) (some mid)) ∨
          e = Event.text_delta st.contentIndex t
            (createPartialMessage st.accumulatedContent (some st.currentUsage) (some mid)) ∨
          e = Event.text_end st.contentIndex t
            (createPartialMessage (st.accumulatedContent ++ [ContentItem.text t])
              (some st.currentUsage) (some mid)) := by
        simpa [stepBlock] using he
      rcases he2 with rfl | rfl | rfl <;> exact h
  | tool_use id name input =>
      cases v with
      | suppress => simp [stepBlock] at he
      | forward =>
          have he2 : e = Event.toolcall_start st.contentIndex
                (createPartialMessage st.accumulatedContent (some st.currentUsage) (some mid)) ∨
              e = Event.toolcall_end st.contentIndex (ContentItem.toolCall id name input)
                (createPartialMessage (st.accumulatedContent ++ [ContentItem.toolCall id name input])
                  (some st.currentUsage) (some mid)) := by
            simpa [stepBlock] using he
          rcases he2 with rfl | rfl <;> exact h
  | tool_result tid c => simp [stepBlock] at he

theorem usageOk_stepBlocks (v : Variant) (mid : String) (bs : List CBBlock) :
    ∀ st : TransState, usageOk st.currentUsage →
      ∀ e ∈ (stepBlocks v mid st bs).2, usageOk (eventMessage e).usage := by
  induction bs with
  | nil => intro st _ e he; simp [stepBlocks] at he
  | cons b bs ih =>
      intro st h e he
      have : e ∈ (stepBlock v mid st b).2 ∨ e ∈ (stepBlocks v mid (stepBlock v mid st b).1 bs).2 := by
        simpa [stepBlocks] using he
      rcases this with he1 | he2
      · exact usageOk_stepBlock v mid st b h e he1
      · exact ih (stepBlock v mid st b).1 (by rw [stepBlock_currentUsage]; exact h) e he2

theorem usageOk_stepMsg (v : Variant) (mid : String) (st : TransState)
    (m : CBMessage) (h : usageOk st.currentUsage) :
    (∀ e ∈ (stepMsg v mid st m).2, usageOk (eventMessage e).usage) ∧
    usageOk (stepMsg v mid st m).1.currentUsage := by
  cases m with
  | assistant c =>
      cases c with
      | none => exact ⟨fun e he => by simp [stepMsg] at he, h⟩
      | some bs =>
          refine ⟨usageOk_stepBlocks v mid bs st h, ?_⟩
          show usageOk (stepBlocks v mid st bs).1.currentUsage
          rw [stepBlocks_currentUsage]
          exact h
  | result raw usage =>
      cases usage with
      | none =>
          refine ⟨fun e he => ?_, h⟩
          have he2 : e = Event.done (mapStopReason v raw)
              { role := "assistant", content := st.accumulatedContent,
                provider := "codebuddy", model := mid, api := "anthropic-messages",
                stopReason := mapStopReason v raw, usage := st.currentUsage } := by
            simpa [stepMsg] using he
          rcases he2 with rfl
          exact h
      | some u =>
          refine ⟨fun e he => ?_, usageOk_remap u⟩
          have he2 : e = Event.done (mapStopReason v raw)
              { role := "assistant", content := st.accumulatedContent,
                provider := "codebuddy", model := mid, api := "anthropic-messages",
                stopReason := mapStopReason v raw, usage := remapUsage u } := by
            simpa [stepMsg] using he
          rcases he2 with rfl
          exact usageOk_remap u
  | system => exact ⟨fun e he => by simp [stepMsg] at he, h⟩
  | other => exact ⟨fun e he => by simp [stepMsg] at he, h⟩

theorem usageOk_stepMsgs (v : Variant) (mid : String) (ms : List CBMessage) :
    ∀ st : TransState, usageOk st.currentUsage →
      ∀ e ∈ (stepMsgs v mid st ms).2, usageOk (eventMessage e).usage := by
  induction ms with
  | nil => intro st _ e he; simp [stepMsgs] at he
  | cons m ms ih =>
      intro st h e he
      have : e ∈ (stepMsg v mid st m).2 ∨ e ∈ (stepMsgs v mid (stepMsg v mid st m).1 ms).2 := by
        simpa [stepMsgs] using he
      rcases this with he1 | he2
      · exact (usageOk_stepMsg v mid st m h).1 e he1
      · exact ih (stepMsg v mid st m).1 (usageOk_stepMsg v mid st m h).2 e he2

/-- C10: every emitted event's assistant-message payload (snapshots, the
`done` event's final message, error messages) carries usage whose cost fields
are all zero and whose `totalTokens` equals `input + output` — cost is never
computed and the cache counters never contribute to `totalTokens`. -/
theorem c10_usage_invariant (v : Variant) (mid : String) (acq : Acquire)
    (up : Upstream) (e : Event) (h : e ∈ runStream v mid acq up) :
    usageOk (eventMessage e).usage := by
  cases acq with
  | failed =>
      have : e = Event.error "error"
          (createPartialMessage [ContentItem.text depErrorText] none none) := by
        simpa [runStream] using h
      subst this
      exact usageOk_default
  | ok =>
      rcases up with ⟨ms, fault⟩
      have hinit : usageOk initState.currentUsage := ⟨rfl, rfl⟩
      cases fault with
      | none =>
          have : e = Event.start (createPartialMessage [] (some initState.currentUsage) (some mid)) ∨
              e ∈ (stepMsgs v mid initState ms).2 := by
            simpa [runStream] using h
          rcases this with he | he
          · subst he; exact hinit
          · exact usageOk_stepMsgs v mid ms initState hinit e he
      | some msg =>
          have : e = Event.start (createPartialMessage [] (some initState.currentUsage) (some mid)) ∨
              e ∈ (stepMsgs v mid initState ms).2 ∨
              e = Event.error "error"
                (createPartialMessage [ContentItem.text msg] none (some mid)) := by
            simpa [runStream] using h
          rcases this with he | he | he
          · subst he; exact hinit
          · exact usageOk_stepMsgs v mid ms initState hinit e he
          · subst he; exact usageOk_default

theorem c10_usage_witness :
    (Event.start (createPartialMessage [] (some initState.currentUsage) (some "m")) ∈
      runStream Variant.suppress "m" Acquire.ok
        ⟨[CBMessage.result (some "end_turn") (some ⟨some 7, some 3, some 2, some 1⟩)], none⟩) ∧
    usageOk (eventMessage (Event.start
      (createPartialMessage [] (some initState.currentUsage) (some "m")))).usage :=
  ⟨by decide,
   c10_usage_invariant Variant.suppress "m" Acquire.ok
     ⟨[CBMessage.result (some "end_turn") (some ⟨some 7, some 3, some 2, some 1⟩)], none⟩ _
     (by decide)⟩

/-! ## C7: prompt building with history -/

theorem findIdx?_cons_eq {α : Type} (p : α → Bool) (a : α) (l : List α) :
    List.findIdx? p (a :: l) =
      if p a then some 0 else (List.findIdx? p l).map (· + 1) := by
  rw [List.findIdx?_cons, List.findIdx?_succ]

theorem lastUserIdx_append_user (l : List ContextMessage) (a : ContextMessage)
    (h : (a.role == "user") = true) :
    lastUserIdx (l ++ [a]) = some l.length := by
  unfold lastUserIdx
  rw [show (l ++ [a]).reverse = a :: l.reverse by simp]
  rw [findIdx?_cons_eq]
  simp [h]

theorem lastUserIdx_append_not (l : List ContextMessage) (a : ContextMessage)
    (h : (a.role == "user") = false) :
    lastUserIdx (l ++ [a]) = lastUserIdx l := by
  unfold lastUserIdx
  rw [show (l ++ [a]).reverse = a :: l.reverse by simp]
  rw [findIdx?_cons_eq]
  simp only [h, if_neg Bool.false_ne_true]
  cases hf : List.findIdx? (fun m => m.role == "user") l.reverse with
  | none => simp
  | some j =>
      simp only [Option.map_some]
      have heq : l.length - (j + 1) = l.length - 1 - j := by omega
      simp [heq]

theorem beforeLastUser_append_user (l : List ContextMessage) (a : ContextMessage)
    (h : (a.role == "user") = true) :
    beforeLastUser (l ++ [a]) = l := by
  unfold beforeLastUser
  rw [show (l ++ [a]).reverse = a :: l.reverse by simp]
  simp [List.dropWhile_cons, h]

theorem beforeLastUser_append_not (l : List ContextMessage) (a : ContextMessage)
    (h : (a.role == "user") = false) :
    beforeLastUser (l ++ [a]) = beforeLastUser l := by
  unfold beforeLastUser
  rw [show (l ++ [a]).reverse = a :: l.reverse by simp]
  simp [List.dropWhile_cons, h]

theorem lastUserIdx_getD_le (l : List ContextMessage) :
    (lastUserIdx l).getD 0 ≤ l.length := by
  unfold lastUserIdx
  cases hf : List.findIdx? (fun m => m.role == "user") l.reverse with
  | none => simp
  | some j => simp; omega

/-- The index-based history slice of the source equals the spec-side
"messages before the last user message". -/
theorem take_lastUserIdx (messages : List ContextMessage) :
    messages.take ((lastUserIdx messages).getD 0) = beforeLastUser messages := by
  induction messages using List.reverseRecOn with
  | nil => rfl
  | append_singleton l a ih =>
      cases h : (a.role == "user") with
      | true =>
          rw [lastUserIdx_append_user l a h, beforeLastUser_append_user l a h]
          exact List.take_left l [a]
      | false =>
          rw [lastUserIdx_append_not l a h, beforeLastUser_append_not l a h, ← ih]
          exact List.take_append_of_le_length (lastUserIdx_getD_le l)

theorem serializeHistory_eq (l : List ContextMessage) :
    serializeHistory l =
      l.filterMap fun msg =>
        if (msg.role == "user" || msg.role == "assistant") &&
            extractTextFromContent msg.content != "" then
          some { role := msg.role, content := extractTextFromContent msg.content }
        else none := by
  unfold serializeHistory
  congr 1
  funext msg
  cases h1 : (msg.role == "user" || msg.role == "assistant") with
  | false => simp [h1]
  | true =>
      by_cases h2 : extractTextFromContent msg.content = ""
      · simp [h1, h2]
      · simp [h1, h2]

theorem specPriorTurns_eq_serialized (messages : List ContextMessage) :
    specPriorTurns messages =
      serializeHistory (messages.take ((lastUserIdx messages).getD 0)) := by
  rw [serializeHistory_eq, take_lastUserIdx]
  rfl

/-- C7: the outbound prompt is the extracted text of the last user message
when there is no prior user/assistant turn with non-empty extracted text
before it, and otherwise the two delimited sections wrapping the serialized
prior turns and the current message; with no user message at all, the
current prompt is the empty string. -/
theorem c7_prompt_with_history (messages : List ContextMessage) :
    (buildPromptWithHistory messages =
      if specPriorTurns messages = [] then extractPromptFromContext messages
      else wrappedPrompt (jsonStringifyHistory (specPriorTurns messages))
        (extractPromptFromContext messages)) ∧
    ((messages.filter fun m => m.role == "user") = [] →
      extractPromptFromContext messages = "") := by
  constructor
  · have hspec := specPriorTurns_eq_serialized messages
    unfold buildPromptWithHistory
    cases hL : lastUserIdx messages with
    | none =>
        rw [hL] at hspec
        have hnil : specPriorTurns messages = [] := by
          rw [hspec]; rfl
        simp [hnil]
    | some idx =>
        rw [hL] at hspec
        simp only [Option.getD_some] at hspec
        by_cases hz : idx = 0
        · subst hz
          have hnil : specPriorTurns messages = [] := by rw [hspec]; rfl
          simp [hnil]
        · by_cases hs : serializeHistory (messages.take idx) = []
          · have hnil : specPriorTurns messages = [] := by rw [hspec, hs]
            simp [hnil, hz, hs]
          · have hne : specPriorTurns messages ≠ [] := by rw [hspec]; exact hs
            rw [hspec]
            simp [hz, hs, hne, wrappedPrompt]
  · intro h
    unfold extractPromptFromContext
    rw [h]
    rfl

/-- Concrete instance of `c7_prompt_with_history` with no user message. -/
def c7Msgs : List ContextMessage := [⟨"assistant", some (MsgContent.str "a")⟩]

theorem c7_prompt_witness :
    (buildPromptWithHistory c7Msgs =
      if specPriorTurns c7Msgs = [] then extractPromptFromContext c7Msgs
      else wrappedPrompt (jsonStringifyHistory (specPriorTurns c7Msgs))
        (extractPromptFromContext c7Msgs)) ∧
    extractPromptFromContext c7Msgs = "" :=
  ⟨(c7_prompt_with_history c7Msgs).1, (c7_prompt_with_history c7Msgs).2 (by decide)⟩

end OpenClaw
